import Mathlib

/-!
Verification of the staggered task-generation core.

Shallow embedding of the repository's task-generator core:

* `hasher.ts` — `computeOffset`, `computeFireTime`, `analyzeDistribution`,
  `isDistributionAcceptable`;
* `TaskGenerator.ts` — construction-time validation, `generateTaskForPatient`,
  `generateTasksForPatients`;
* `constants.ts` — `SCRAPE_INTERVAL_SECONDS`, `DEFAULT_BIN_COUNT`.

Modelling conventions:

* JS numbers that the spec restricts to integers (`binCount`,
  `intervalSeconds`, offsets) are embedded as `Int`; hash values as `Nat`.
* Timestamps (`Date`) are embedded as `Int` milliseconds since epoch
  (`Date.getTime()`).
* A JS `throw` is an `Except.error` carrying the thrown message; JS
  `try/catch` is a `match` on the `Except`.
* Node's `createHash('sha256').update(s).digest('hex')` is embedded by an
  executable SHA-256 over the UTF-8 bytes of `s`, rendered in lowercase hex.
* The JS `Map` (insertion-ordered) is embedded as an association list
  `List (Int × Nat)` with `Map.set` / `Map.get` semantics.
* `randomUUID()` and `Date.now()` are effects: they enter the model as
  explicit parameters (`uuid : Nat → String`, `nowMs : Int`); no claim
  depends on their values.
-/

namespace VectorTakehome

/-! ## JavaScript string trimming

`String.prototype.trim` removes the JS WhiteSpace and LineTerminator
characters from both ends. -/

/-- The characters removed by JS `trim()`: TAB, LF, VT, FF, CR, SP, NBSP,
Ogham space, the U+2000–U+200A spaces, LS, PS, NNBSP, MMSP, ideographic
space, and the BOM. -/
def isJsWhitespace (c : Char) : Bool :=
  c.toNat = 9 || c.toNat = 10 || c.toNat = 11 || c.toNat = 12 || c.toNat = 13 ||
  c.toNat = 32 || c.toNat = 0xA0 || c.toNat = 0x1680 ||
  (0x2000 ≤ c.toNat && c.toNat ≤ 0x200A) ||
  c.toNat = 0x2028 || c.toNat = 0x2029 || c.toNat = 0x202F || c.toNat = 0x205F ||
  c.toNat = 0x3000 || c.toNat = 0xFEFF

/-- JS `s.trim()` on the character list of `s`. -/
def jsTrimList (cs : List Char) : List Char :=
  ((cs.dropWhile isJsWhitespace).reverse.dropWhile isJsWhitespace).reverse

/-- JS `s.trim()`. -/
def jsTrim (s : String) : String :=
  String.mk (jsTrimList s.data)

/-! ## UTF-8 encoding

`hash.update(patientId)` digests the UTF-8 bytes of the string. -/

/-- UTF-8 encoding of one scalar value. -/
def utf8EncodeChar (c : Char) : List Nat :=
  let n := c.toNat
  if n < 0x80 then [n]
  else if n < 0x800 then
    [0xC0 + n / 64, 0x80 + n % 64]
  else if n < 0x10000 then
    [0xE0 + n / 4096, 0x80 + (n / 64) % 64, 0x80 + n % 64]
  else
    [0xF0 + n / 262144, 0x80 + (n / 4096) % 64, 0x80 + (n / 64) % 64, 0x80 + n % 64]

/-- UTF-8 bytes of a string. -/
def utf8Bytes (s : String) : List Nat :=
  (s.data.map utf8EncodeChar).flatten

/-! ## SHA-256 (FIPS 180-4), executable over byte lists -/

namespace Sha256

/-- The word modulus `2^32`. -/
def w32 : Nat := 4294967296

/-- Right rotation of a 32-bit word. -/
def rotr (n x : Nat) : Nat := ((x >>> n) + (x <<< (32 - n))) % w32

/-- Big sigma 0: `rotr 2 ⊕ rotr 13 ⊕ rotr 22`. -/
def bigS0 (x : Nat) : Nat := rotr 2 x ^^^ rotr 13 x ^^^ rotr 22 x

/-- Big sigma 1: `rotr 6 ⊕ rotr 11 ⊕ rotr 25`. -/
def bigS1 (x : Nat) : Nat := rotr 6 x ^^^ rotr 11 x ^^^ rotr 25 x

/-- Small sigma 0: `rotr 7 ⊕ rotr 18 ⊕ shr 3`. -/
def smallS0 (x : Nat) : Nat := rotr 7 x ^^^ rotr 18 x ^^^ (x >>> 3)

/-- Small sigma 1: `rotr 17 ⊕ rotr 19 ⊕ shr 10`. -/
def smallS1 (x : Nat) : Nat := rotr 17 x ^^^ rotr 19 x ^^^ (x >>> 10)

/-- Choice: `Ch(x,y,z) = (x ∧ y) ⊕ (¬x ∧ z)` on 32-bit words. -/
def ch (x y z : Nat) : Nat := (x &&& y) ^^^ ((x ^^^ (w32 - 1)) &&& z)

/-- Majority: `Maj(x,y,z) = (x ∧ y) ⊕ (x ∧ z) ⊕ (y ∧ z)`. -/
def maj (x y z : Nat) : Nat := (x &&& y) ^^^ (x &&& z) ^^^ (y &&& z)

/-- The 64 round constants (fractional parts of the cube roots of the
first 64 primes), in eight groups of eight. -/
def K : List Nat :=
  [0x428a2f98, 0x71374491, 0xb5c0fbcf, 0xe9b5dba5,
   0x3956c25b, 0x59f111f1, 0x923f82a4, 0xab1c5ed5] ++
  [0xd807aa98, 0x12835b01, 0x243185be, 0x550c7dc3,
   0x72be5d74, 0x80deb1fe, 0x9bdc06a7, 0xc19bf174] ++
  [0xe49b69c1, 0xefbe4786, 0x0fc19dc6, 0x240ca1cc,
   0x2de92c6f, 0x4a7484aa, 0x5cb0a9dc, 0x76f988da] ++
  [0x983e5152, 0xa831c66d, 0xb00327c8, 0xbf597fc7,
   0xc6e00bf3, 0xd5a79147, 0x06ca6351, 0x14292967] ++
  [0x27b70a85, 0x2e1b2138, 0x4d2c6dfc, 0x53380d13,
   0x650a7354, 0x766a0abb, 0x81c2c92e, 0x92722c85] ++
  [0xa2bfe8a1, 0xa81a664b, 0xc24b8b70, 0xc76c51a3,
   0xd192e819, 0xd6990624, 0xf40e3585, 0x106aa070] ++
  [0x19a4c116, 0x1e376c08, 0x2748774c, 0x34b0bcb5,
   0x391c0cb3, 0x4ed8aa4a, 0x5b9cca4f, 0x682e6ff3] ++
  [0x748f82ee, 0x78a5636f, 0x84c87814, 0x8cc70208,
   0x90befffa, 0xa4506ceb, 0xbef9a3f7, 0xc67178f2]

/-- The initial hash value. -/
def H0 : List Nat :=
  [0x6a09e667, 0xbb67ae85, 0x3c6ef372, 0xa54ff53a,
   0x510e527f, 0x9b05688c, 0x1f83d9ab, 0x5be0cd19]

/-- Big-endian 8-byte encoding of the bit length. -/
def be64 (n : Nat) : List Nat :=
  [(n >>> 56) % 256, (n >>> 48) % 256, (n >>> 40) % 256, (n >>> 32) % 256,
   (n >>> 24) % 256, (n >>> 16) % 256, (n >>> 8) % 256, n % 256]

/-- Pad a message to a multiple of 64 bytes: append `0x80`, then zeros,
then the 64-bit big-endian bit length. -/
def padMessage (m : List Nat) : List Nat :=
  let k := (120 - (m.length + 1) % 64) % 64
  m ++ 0x80 :: List.replicate k 0 ++ be64 (8 * m.length)

/-- Group bytes into big-endian 32-bit words. -/
def bytesToWords : List Nat → List Nat
  | b0 :: b1 :: b2 :: b3 :: rest =>
      (b0 * 16777216 + b1 * 65536 + b2 * 256 + b3) :: bytesToWords rest
  | _ => []

/-- One step of the message-schedule extension: append word `w[i]`. -/
def extendStep (ws : List Nat) : List Nat :=
  let i := ws.length
  let g := fun j => ws.getD j 0
  ws ++ [(g (i - 16) + smallS0 (g (i - 15)) + g (i - 7) + smallS1 (g (i - 2))) % w32]

/-- Iterate the extension `n` times. -/
def extendMany : Nat → List Nat → List Nat
  | 0, ws => ws
  | n + 1, ws => extendMany n (extendStep ws)

/-- The eight working registers. -/
structure Regs where
  a : Nat
  b : Nat
  c : Nat
  d : Nat
  e : Nat
  f : Nat
  g : Nat
  h : Nat

/-- One compression round with constant `k` and schedule word `w`. -/
def round (r : Regs) (k w : Nat) : Regs :=
  let t1 := (r.h + bigS1 r.e + ch r.e r.f r.g + k + w) % w32
  let t2 := (bigS0 r.a + maj r.a r.b r.c) % w32
  ⟨(t1 + t2) % w32, r.a, r.b, r.c, (r.d + t1) % w32, r.e, r.f, r.g⟩

/-- Compress one 64-byte chunk into the running hash `H`. -/
def compressChunk (H : List Nat) (chunk : List Nat) : List Nat :=
  let ws := extendMany 48 (bytesToWords chunk)
  let init : Regs :=
    ⟨H.getD 0 0, H.getD 1 0, H.getD 2 0, H.getD 3 0,
     H.getD 4 0, H.getD 5 0, H.getD 6 0, H.getD 7 0⟩
  let r := (K.zip ws).foldl (fun r p => round r p.1 p.2) init
  [(H.getD 0 0 + r.a) % w32, (H.getD 1 0 + r.b) % w32,
   (H.getD 2 0 + r.c) % w32, (H.getD 3 0 + r.d) % w32,
   (H.getD 4 0 + r.e) % w32, (H.getD 5 0 + r.f) % w32,
   (H.getD 6 0 + r.g) % w32, (H.getD 7 0 + r.h) % w32]

/-- Split a list into 64-byte chunks, with fuel for termination. -/
def toChunksAux : Nat → List Nat → List (List Nat)
  | 0, _ => []
  | _ + 1, [] => []
  | fuel + 1, l => l.take 64 :: toChunksAux fuel (l.drop 64)

/-- Split a (padded) message into 64-byte chunks. -/
def toChunks (l : List Nat) : List (List Nat) := toChunksAux l.length l

/-- A 32-bit word as four big-endian bytes. -/
def wordToBytes (w : Nat) : List Nat :=
  [(w >>> 24) % 256, (w >>> 16) % 256, (w >>> 8) % 256, w % 256]

/-- SHA-256 digest, as a list of 32 bytes. -/
def sha256 (msg : List Nat) : List Nat :=
  let final := (toChunks (padMessage msg)).foldl compressChunk H0
  (final.map wordToBytes).flatten

end Sha256

/-! ## Lowercase hex rendering and parsing

`digest('hex')` renders the digest bytes as lowercase hex;
`parseInt(h, 16)` parses hex digits most-significant first. -/

/-- The lowercase hex digit for `n < 16`. -/
def hexDigitChar (n : Nat) : Char :=
  if n < 10 then Char.ofNat (48 + n) else Char.ofNat (87 + n)

/-- Two lowercase hex characters for a byte. -/
def byteToHex (b : Nat) : List Char := [hexDigitChar (b / 16), hexDigitChar (b % 16)]

/-- Numeric value of a hex digit (case-insensitive), `0` on non-digits
(the digest's hex characters are always valid). -/
def hexDigitVal (c : Char) : Nat :=
  if 48 ≤ c.toNat ∧ c.toNat ≤ 57 then c.toNat - 48
  else if 97 ≤ c.toNat ∧ c.toNat ≤ 102 then c.toNat - 87
  else if 65 ≤ c.toNat ∧ c.toNat ≤ 70 then c.toNat - 55
  else 0

/-- The value of `parseInt(cs, 16)` for a list of hex digits. -/
def parseHexNat (cs : List Char) : Nat :=
  cs.foldl (fun acc c => 16 * acc + hexDigitVal c) 0

/-- The lowercase hex digest of a message: `createHash('sha256').update(·).digest('hex')`. -/
def sha256Hex (msg : List Nat) : List Char :=
  ((Sha256.sha256 msg).map byteToHex).flatten

/-! ## `constants.ts` -/

/-- Constant `SCRAPE_INTERVAL_SECONDS = 300` from `constants.ts`. -/
def SCRAPE_INTERVAL_SECONDS : Int := 300

/-- Constant `DEFAULT_BIN_COUNT = 300` from `constants.ts`. -/
def DEFAULT_BIN_COUNT : Int := 300

/-! ## `hasher.ts` -/

/-- Function `computeOffset(patientId, binCount)` from `hasher.ts`:
guards (`!patientId || patientId.trim().length === 0`, `binCount <= 0`)
throw; otherwise the first 8 hex characters of the SHA-256 hex digest are
parsed as a number and reduced modulo `binCount`. -/
def computeOffset (patientId : String) (binCount : Int) : Except String Int :=
  if patientId = "" ∨ (jsTrim patientId).length = 0 then
    .error "Patient ID is required and cannot be empty"
  else if binCount ≤ 0 then
    .error "Bin count must be a positive integer"
  else
    let hash := sha256Hex (utf8Bytes patientId)
    let numericValue := parseHexNat (hash.take 8)
    .ok ((numericValue : Int) % binCount)

/-- Function `computeFireTime(patientId, cycleStart, binCount)` from `hasher.ts`:
`new Date(cycleStart.getTime() + offsetSeconds * 1000)`, in epoch ms. -/
def computeFireTime (patientId : String) (cycleStartMs : Int) (binCount : Int) :
    Except String Int := do
  let offsetSeconds ← computeOffset patientId binCount
  let fireAt := cycleStartMs + offsetSeconds * 1000
  return fireAt

/-! ## JS `Map<number, number>` as an insertion-ordered association list -/

/-- JS `m.get(k)`: the value at the first (and only) entry with key `k`. -/
def mapGet (m : List (Int × Nat)) (k : Int) : Option Nat :=
  (m.find? (fun p => p.1 == k)).map (·.2)

/-- JS `m.set(k, v)`: update in place when the key exists, else append. -/
def mapSet (m : List (Int × Nat)) (k : Int) (v : Nat) : List (Int × Nat) :=
  if m.any (fun p => p.1 == k) then
    m.map (fun p => if p.1 == k then (k, v) else p)
  else
    m ++ [(k, v)]

/-- The seeding loop `for (i = 0; i < binCount; i++) m.set(i, 0)` starting
from an empty map: each key is fresh, so the entries appear in order. -/
def seedBins (binCount : Int) : List (Int × Nat) :=
  (List.range binCount.toNat).map (fun i : Nat => ((i : Int), 0))

/-- The expected key list of a seeded bin map: `0, 1, …, binCount-1`. -/
def rangeKeys (binCount : Int) : List Int :=
  (List.range binCount.toNat).map (fun i : Nat => (i : Int))

/-- The bin bump `m.set(off, (m.get(off) || 0) + 1)` performed by both
`analyzeDistribution` and the batch loop. -/
def bumpBin (m : List (Int × Nat)) (off : Int) : List (Int × Nat) :=
  mapSet m off ((mapGet m off).getD 0 + 1)

/-! ## `analyzeDistribution` and `isDistributionAcceptable` from `hasher.ts`

The bin counts are integers; `mean`/`variance` are modelled in `ℚ` and
`Math.sqrt` as `Real.sqrt` (JS float arithmetic read as exact arithmetic).
`Math.min()`/`Math.max()` of an empty spread are `±Infinity` in JS; that
happens only for `binCount ≤ 0` with no identifiers, where the model
returns the junk value `0`. -/

/-- The record returned by `analyzeDistribution`. -/
structure DistributionStats where
  binCounts : List (Int × Nat)
  min : Nat
  max : Nat
  mean : ℚ
  stdDev : ℝ
  variance : ℚ

/-- Function `analyzeDistribution(patientIds, binCount)`: seed all bins to zero,
hash every identifier (a throw propagates — this function has no
`try/catch`), then compute summary statistics over the bin populations. -/
noncomputable def analyzeDistribution (patientIds : List String) (binCount : Int) :
    Except String DistributionStats := do
  let seed := seedBins binCount
  let binCounts ← patientIds.foldlM (fun m patientId => do
      let offset ← computeOffset patientId binCount
      return bumpBin m offset) seed
  let counts := binCounts.map (·.2)
  let min := counts.foldr Nat.min (counts.headD 0)
  let max := counts.foldr Nat.max (counts.headD 0)
  let mean : ℚ := (counts.sum : ℚ) / (counts.length : ℚ)
  let squaredDiffs := counts.map (fun count : Nat => ((count : ℚ) - mean) ^ 2)
  let variance : ℚ := squaredDiffs.sum / (counts.length : ℚ)
  let stdDev : ℝ := Real.sqrt (variance : ℝ)
  return { binCounts, min, max, mean, stdDev, variance }

/-- Function `isDistributionAcceptable(patientIds, binCount, maxVariance)`:
`cv = mean > 0 ? stdDev / mean : 0`, accepted when `cv <= maxVariance`.
The returned boolean is modelled as a `Prop` (the comparison is on reals). -/
noncomputable def isDistributionAcceptable (patientIds : List String) (binCount : Int)
    (maxVariance : ℚ) : Except String Prop := do
  let stats ← analyzeDistribution patientIds binCount
  let cv : ℝ := if stats.mean > 0 then stats.stdDev / (stats.mean : ℝ) else 0
  return (cv ≤ (maxVariance : ℝ))

/-! ## `types.ts` and `TaskGenerator.ts`

`randomUUID()` and `Date.now()` are modelled as explicit parameters:
`uuid n` is the `n`-th UUID drawn during a batch call and `nowMs` the
wall clock at task creation. `generationTimeMs` (a wall-clock duration)
is modelled as `0`. -/

/-- Type `TaskStatus` from `types.ts`. -/
inductive TaskStatus where
  | pending
  | in_progress
  | completed
  | failed
deriving DecidableEq

/-- Type `PatientInput` from `types.ts` (the generator reads only `id`). -/
structure PatientInput where
  id : String
  endpointUrl : Option String := none

/-- Type `ScrapeTask` from `types.ts`, with `Date` fields in epoch ms.
The optional `completedAt`, which the generator never sets, is omitted. -/
structure ScrapeTask where
  id : String
  patientId : String
  fireAtMs : Int
  offsetSeconds : Int
  status : TaskStatus
  consecutiveFailures : Int
  createdAtMs : Int

/-- Type `TaskGeneratorConfig` from `types.ts` (both fields optional). -/
structure TaskGeneratorConfig where
  intervalSeconds : Option Int := none
  binCount : Option Int := none

/-- A successfully constructed `TaskGenerator`: its two readonly fields. -/
structure TaskGenerator where
  intervalSeconds : Int
  binCount : Int

/-- The `TaskGenerator` constructor: apply the `??` defaults, then
validate; a throw means no instance is produced. -/
def TaskGenerator.create (config : TaskGeneratorConfig) : Except String TaskGenerator :=
  let intervalSeconds := config.intervalSeconds.getD SCRAPE_INTERVAL_SECONDS
  let binCount := config.binCount.getD DEFAULT_BIN_COUNT
  if intervalSeconds ≤ 0 then .error "Interval seconds must be positive"
  else if binCount ≤ 0 then .error "Bin count must be positive"
  else if binCount > intervalSeconds then .error "Bin count cannot exceed interval seconds"
  else .ok ⟨intervalSeconds, binCount⟩

/-- Method `generateTaskForPatient(patient, cycleStart)`: the falsiness guard
`!patient.id` (true exactly on the empty string — no trimming), then the
offset and fire time via the hasher, then a fresh task. -/
def TaskGenerator.generateTaskForPatient (g : TaskGenerator) (freshId : String)
    (nowMs : Int) (patient : PatientInput) (cycleStartMs : Int) :
    Except String ScrapeTask :=
  if patient.id = "" then .error "Patient ID is required"
  else do
    let offsetSeconds ← computeOffset patient.id g.binCount
    let fireAt ← computeFireTime patient.id cycleStartMs g.binCount
    return { id := freshId, patientId := patient.id, fireAtMs := fireAt,
             offsetSeconds := offsetSeconds, status := .pending,
             consecutiveFailures := 0, createdAtMs := nowMs }

/-- One iteration of the batch loop: on success push the task and bump its
bin; on a throw, log and continue (the state is unchanged). -/
def TaskGenerator.batchStep (g : TaskGenerator) (uuid : Nat → String) (nowMs : Int)
    (cycleStartMs : Int) (acc : List ScrapeTask × List (Int × Nat))
    (patient : PatientInput) : List ScrapeTask × List (Int × Nat) :=
  match g.generateTaskForPatient (uuid acc.1.length) nowMs patient cycleStartMs with
  | .ok task => (acc.1 ++ [task], bumpBin acc.2 task.offsetSeconds)
  | .error _ => acc

/-- The `stats` record of `TaskGenerationResult` from `types.ts`. -/
structure CycleStats where
  totalPatients : Nat
  tasksGenerated : Nat
  binDistribution : List (Int × Nat)
  generationTimeMs : Int

/-- Type `TaskGenerationResult` from `types.ts`. -/
structure TaskGenerationResult where
  tasks : List ScrapeTask
  stats : CycleStats

/-- Method `generateTasksForPatients(patients, cycleStart)`: seed the bin map,
run the loop with per-record catch-and-continue, and report stats. -/
def TaskGenerator.generateTasksForPatients (g : TaskGenerator) (uuid : Nat → String)
    (nowMs : Int) (patients : List PatientInput) (cycleStartMs : Int) :
    TaskGenerationResult :=
  let r := patients.foldl (g.batchStep uuid nowMs cycleStartMs) ([], seedBins g.binCount)
  { tasks := r.1,
    stats := { totalPatients := patients.length, tasksGenerated := r.1.length,
               binDistribution := r.2, generationTimeMs := 0 } }

/-! ## Derived definitions used by the statements -/

/-- The value computed by the success branch of `computeOffset`: the first
8 hex characters of the digest, parsed, reduced modulo `binCount`. -/
def offsetValue (patientId : String) (binCount : Int) : Int :=
  (parseHexNat ((sha256Hex (utf8Bytes patientId)).take 8) : Int) % binCount

/-- Spec-side reading for C1: the unsigned integer formed by the first
32 bits of a digest, i.e. its first 4 bytes in big-endian order. -/
def first32BE (digest : List Nat) : Nat :=
  digest.getD 0 0 * 16777216 + digest.getD 1 0 * 65536 +
    digest.getD 2 0 * 256 + digest.getD 3 0

/-- A record passes both the generator's falsiness guard (`!patient.id`)
and the hasher's trimmed-emptiness guard. -/
def recordOk (p : PatientInput) : Bool :=
  p.id != "" && jsTrim p.id != ""

/-! ## Supporting lemmas -/

theorem string_length_zero_iff (s : String) : s.length = 0 ↔ s = "" := by
  constructor
  · intro h
    cases s with
    | mk data =>
      have hd : data = [] := List.length_eq_zero.mp h
      subst hd
      rfl
  · intro h
    rw [h]
    rfl

/-- The hasher's guard `!patientId || patientId.trim().length === 0` fires
exactly when the identifier trims to the empty string. -/
theorem computeOffset_guard_iff (patientId : String) :
    (patientId = "" ∨ (jsTrim patientId).length = 0) ↔ jsTrim patientId = "" := by
  constructor
  · rintro (rfl | h)
    · rfl
    · exact (string_length_zero_iff _).mp h
  · intro h
    exact Or.inr ((string_length_zero_iff _).mpr h)

/-- Rewriting of `computeOffset` with the guard condition collapsed and the
success value named. -/
theorem computeOffset_spec (patientId : String) (binCount : Int) :
    computeOffset patientId binCount =
      if jsTrim patientId = "" then .error "Patient ID is required and cannot be empty"
      else if binCount ≤ 0 then .error "Bin count must be a positive integer"
      else .ok (offsetValue patientId binCount) := by
  unfold computeOffset
  exact if_congr (computeOffset_guard_iff patientId) rfl rfl

/-- Claim C7. `computeOffset` reports its invalid-argument error exactly when
the identifier is empty or whitespace-only (i.e. trims to `""`) or
`binCount ≤ 0`; for every other input — non-ASCII content included, since
the statement quantifies over all strings — it returns normally. -/
theorem computeOffset_error_condition (patientId : String) (binCount : Int) :
    (∃ e, computeOffset patientId binCount = .error e) ↔
      (jsTrim patientId = "" ∨ binCount ≤ 0) := by
  by_cases h1 : jsTrim patientId = ""
  · simp [computeOffset_spec, h1]
  · by_cases h2 : binCount ≤ 0
    · simp [computeOffset_spec, h1, h2]
    · simp [computeOffset_spec, h1, h2]

/-- Claim C2. For every identifier that is non-empty after trimming and every
positive `binCount`, `computeOffset` succeeds with an integer in
`[0, binCount)`. -/
theorem computeOffset_range_bound (patientId : String) (binCount : Int)
    (hid : jsTrim patientId ≠ "") (hbin : 0 < binCount) :
    ∃ offset, computeOffset patientId binCount = .ok offset ∧
      0 ≤ offset ∧ offset < binCount := by
  refine ⟨offsetValue patientId binCount, ?_, ?_, ?_⟩
  · rw [computeOffset_spec, if_neg hid, if_neg (not_le.mpr hbin)]
  · unfold offsetValue
    exact Int.emod_nonneg _ (by omega)
  · unfold offsetValue
    exact Int.emod_lt_of_pos _ hbin

theorem computeOffset_range_bound_witness :
    jsTrim "patient-123" ≠ "" ∧ (0 : Int) < 300 ∧
    ∃ offset, computeOffset "patient-123" 300 = .ok offset ∧
      0 ≤ offset ∧ offset < 300 :=
  ⟨by decide, by decide,
    computeOffset_range_bound "patient-123" 300 (by decide) (by decide)⟩

/-- Claim C4. For a fixed identifier and bin count, the fire times of two
interval-aligned cycle starts `c` and `c + I` (here in epoch ms, so
`c + I * 1000`) differ by exactly `I` seconds. -/
theorem fireTime_no_gap (patientId : String) (binCount intervalSeconds cycleStartMs : Int)
    (hid : jsTrim patientId ≠ "") (hbin : 0 < binCount) :
    ∃ t1 t2,
      computeFireTime patientId cycleStartMs binCount = .ok t1 ∧
      computeFireTime patientId (cycleStartMs + intervalSeconds * 1000) binCount = .ok t2 ∧
      t2 - t1 = intervalSeconds * 1000 := by
  have h := computeOffset_spec patientId binCount
  rw [if_neg hid, if_neg (not_le.mpr hbin)] at h
  refine ⟨cycleStartMs + offsetValue patientId binCount * 1000,
          cycleStartMs + intervalSeconds * 1000 + offsetValue patientId binCount * 1000,
          ?_, ?_, by ring⟩
  · unfold computeFireTime
    rw [h]
    rfl
  · unfold computeFireTime
    rw [h]
    rfl

theorem fireTime_no_gap_witness :
    jsTrim "patient-nogap-test" ≠ "" ∧ (0 : Int) < 300 ∧
    ∃ t1 t2,
      computeFireTime "patient-nogap-test" 0 300 = .ok t1 ∧
      computeFireTime "patient-nogap-test" (0 + 300 * 1000) 300 = .ok t2 ∧
      t2 - t1 = 300 * 1000 :=
  ⟨by decide, by decide,
    fireTime_no_gap "patient-nogap-test" 300 300 0 (by decide) (by decide)⟩

/-- Claim C6. Construction fails exactly when the effective configuration
(after the `?? 300` defaults) has `intervalSeconds ≤ 0`, `binCount ≤ 0`,
or `binCount > intervalSeconds`; a failure produces no generator value.
The three configurations called out by the spec all fail. -/
theorem constructor_validation :
    (∀ config : TaskGeneratorConfig,
      (∃ e, TaskGenerator.create config = .error e) ↔
        (config.intervalSeconds.getD SCRAPE_INTERVAL_SECONDS ≤ 0 ∨
         config.binCount.getD DEFAULT_BIN_COUNT ≤ 0 ∨
         config.binCount.getD DEFAULT_BIN_COUNT >
           config.intervalSeconds.getD SCRAPE_INTERVAL_SECONDS)) ∧
    (∃ e, TaskGenerator.create { intervalSeconds := some 0 } = .error e) ∧
    (∃ e, TaskGenerator.create { binCount := some 0 } = .error e) ∧
    (∃ e, TaskGenerator.create { intervalSeconds := some 60, binCount := some 120 } =
      .error e) := by
  refine ⟨fun config => ?_, ⟨_, rfl⟩, ⟨_, rfl⟩, ⟨_, rfl⟩⟩
  by_cases h1 : config.intervalSeconds.getD SCRAPE_INTERVAL_SECONDS ≤ 0
  · simp [TaskGenerator.create, h1]
  · by_cases h2 : config.binCount.getD DEFAULT_BIN_COUNT ≤ 0
    · simp [TaskGenerator.create, h1, h2]
    · by_cases h3 : config.binCount.getD DEFAULT_BIN_COUNT >
          config.intervalSeconds.getD SCRAPE_INTERVAL_SECONDS
      · simp [TaskGenerator.create, h1, h2, h3]
      · simp [TaskGenerator.create, h1, h2, h3]

/-! ## The hex prefix of the digest is its first four bytes (C1) -/

theorem hexDigitVal_hexDigitChar : ∀ n < 16, hexDigitVal (hexDigitChar n) = n := by decide

theorem compressChunk_length (H chunk : List Nat) :
    (Sha256.compressChunk H chunk).length = 8 := by
  simp [Sha256.compressChunk]

theorem foldl_compressChunk_length (chunks : List (List Nat)) (H : List Nat)
    (h : H.length = 8) : (chunks.foldl Sha256.compressChunk H).length = 8 := by
  induction chunks generalizing H with
  | nil => exact h
  | cons c cs ih => exact ih _ (compressChunk_length _ _)

theorem flatten_map_wordToBytes_length (ws : List Nat) :
    ((ws.map Sha256.wordToBytes).flatten).length = 4 * ws.length := by
  induction ws with
  | nil => rfl
  | cons w ws ih =>
      simp [Sha256.wordToBytes, ih]
      omega

theorem sha256_length (msg : List Nat) : (Sha256.sha256 msg).length = 32 := by
  simp only [Sha256.sha256]
  rw [flatten_map_wordToBytes_length,
    foldl_compressChunk_length (Sha256.toChunks (Sha256.padMessage msg)) Sha256.H0 rfl]

theorem sha256_bytes_lt (msg : List Nat) : ∀ b ∈ Sha256.sha256 msg, b < 256 := by
  intro b hb
  simp only [Sha256.sha256, List.mem_flatten, List.mem_map] at hb
  obtain ⟨l, ⟨w, _, hwl⟩, hbl⟩ := hb
  subst hwl
  simp only [Sha256.wordToBytes, List.mem_cons, List.not_mem_nil, or_false] at hbl
  rcases hbl with rfl | rfl | rfl | rfl <;> omega

theorem parseHexNat_take8 (b0 b1 b2 b3 : Nat) (rest : List Nat)
    (h0 : b0 < 256) (h1 : b1 < 256) (h2 : b2 < 256) (h3 : b3 < 256) :
    parseHexNat ((((b0 :: b1 :: b2 :: b3 :: rest).map byteToHex).flatten).take 8) =
      b0 * 16777216 + b1 * 65536 + b2 * 256 + b3 := by
  have e0 := hexDigitVal_hexDigitChar (b0 / 16) (by omega)
  have e1 := hexDigitVal_hexDigitChar (b0 % 16) (by omega)
  have e2 := hexDigitVal_hexDigitChar (b1 / 16) (by omega)
  have e3 := hexDigitVal_hexDigitChar (b1 % 16) (by omega)
  have e4 := hexDigitVal_hexDigitChar (b2 / 16) (by omega)
  have e5 := hexDigitVal_hexDigitChar (b2 % 16) (by omega)
  have e6 := hexDigitVal_hexDigitChar (b3 / 16) (by omega)
  have e7 := hexDigitVal_hexDigitChar (b3 % 16) (by omega)
  simp [byteToHex, parseHexNat, List.take_succ_cons, List.foldl,
    e0, e1, e2, e3, e4, e5, e6, e7]
  omega

theorem parseHex_first8_eq_first32BE (msg : List Nat) :
    parseHexNat ((sha256Hex msg).take 8) = first32BE (Sha256.sha256 msg) := by
  have hlen := sha256_length msg
  have hlt := sha256_bytes_lt msg
  unfold sha256Hex
  rcases hdig : Sha256.sha256 msg with _ | ⟨b0, _ | ⟨b1, _ | ⟨b2, _ | ⟨b3, rest⟩⟩⟩⟩
  · rw [hdig] at hlen; simp at hlen
  · rw [hdig] at hlen; simp at hlen
  · rw [hdig] at hlen; simp at hlen
  · rw [hdig] at hlen; simp at hlen
  · rw [hdig] at hlt
    rw [parseHexNat_take8 b0 b1 b2 b3 rest
      (hlt b0 (by simp)) (hlt b1 (by simp)) (hlt b2 (by simp)) (hlt b3 (by simp))]
    simp [first32BE]

/-- Claim C1. For every identifier that is non-empty after trimming and every
positive `binCount`, `computeOffset` returns the unsigned integer formed by
the first 32 bits (first 4 bytes, big-endian) of the SHA-256 digest of the
identifier, reduced modulo `binCount`. Determinism across calls and
processes is the purity of this formula: the result is a function of
`(identifier, binCount)` alone. -/
theorem computeOffset_matches_sha256_first32 (patientId : String) (binCount : Int)
    (hid : jsTrim patientId ≠ "") (hbin : 0 < binCount) :
    computeOffset patientId binCount =
      .ok ((first32BE (Sha256.sha256 (utf8Bytes patientId)) : Int) % binCount) := by
  rw [computeOffset_spec, if_neg hid, if_neg (not_le.mpr hbin)]
  unfold offsetValue
  rw [parseHex_first8_eq_first32BE]

theorem computeOffset_matches_sha256_first32_witness :
    jsTrim "patient-123" ≠ "" ∧ (0 : Int) < 300 ∧
    computeOffset "patient-123" 300 =
      .ok ((first32BE (Sha256.sha256 (utf8Bytes "patient-123")) : Int) % 300) :=
  ⟨by decide, by decide,
    computeOffset_matches_sha256_first32 "patient-123" 300 (by decide) (by decide)⟩

/-! ## Generator lemmas -/

theorem offsetValue_bound (patientId : String) (binCount : Int) (hbin : 0 < binCount) :
    0 ≤ offsetValue patientId binCount ∧ offsetValue patientId binCount < binCount := by
  unfold offsetValue
  exact ⟨Int.emod_nonneg _ (by omega), Int.emod_lt_of_pos _ hbin⟩

theorem create_ok_inv (config : TaskGeneratorConfig) (g : TaskGenerator)
    (h : TaskGenerator.create config = .ok g) :
    0 < g.intervalSeconds ∧ 0 < g.binCount ∧ g.binCount ≤ g.intervalSeconds := by
  simp only [TaskGenerator.create] at h
  split at h
  · cases h
  · split at h
    · cases h
    · split at h
      · cases h
      · rename_i hi hb hbi
        cases h
        refine ⟨?_, ?_, ?_⟩ <;> dsimp only <;> omega

theorem generateTaskForPatient_err_guard (g : TaskGenerator) (freshId : String)
    (nowMs : Int) (patient : PatientInput) (cycleStartMs : Int) (h1 : patient.id = "") :
    g.generateTaskForPatient freshId nowMs patient cycleStartMs =
      .error "Patient ID is required" := by
  unfold TaskGenerator.generateTaskForPatient
  rw [if_pos h1]

theorem generateTaskForPatient_err_trim (g : TaskGenerator) (freshId : String)
    (nowMs : Int) (patient : PatientInput) (cycleStartMs : Int)
    (h1 : patient.id ≠ "") (h2 : jsTrim patient.id = "") :
    g.generateTaskForPatient freshId nowMs patient cycleStartMs =
      .error "Patient ID is required and cannot be empty" := by
  unfold TaskGenerator.generateTaskForPatient
  rw [if_neg h1]
  have h := computeOffset_spec patient.id g.binCount
  rw [if_pos h2] at h
  simp only [h]
  rfl

theorem generateTaskForPatient_ok (g : TaskGenerator) (freshId : String)
    (nowMs : Int) (patient : PatientInput) (cycleStartMs : Int)
    (hbin : 0 < g.binCount) (h1 : patient.id ≠ "") (h2 : jsTrim patient.id ≠ "") :
    g.generateTaskForPatient freshId nowMs patient cycleStartMs =
      .ok { id := freshId, patientId := patient.id,
            fireAtMs := cycleStartMs + offsetValue patient.id g.binCount * 1000,
            offsetSeconds := offsetValue patient.id g.binCount,
            status := .pending, consecutiveFailures := 0, createdAtMs := nowMs } := by
  unfold TaskGenerator.generateTaskForPatient
  rw [if_neg h1]
  have h := computeOffset_spec patient.id g.binCount
  rw [if_neg h2, if_neg (not_le.mpr hbin)] at h
  unfold computeFireTime
  simp only [h]
  rfl

theorem generateTaskForPatient_ok_inv (g : TaskGenerator) (freshId : String)
    (nowMs : Int) (patient : PatientInput) (cycleStartMs : Int) (task : ScrapeTask)
    (hbin : 0 < g.binCount)
    (h : g.generateTaskForPatient freshId nowMs patient cycleStartMs = .ok task) :
    task.offsetSeconds = offsetValue patient.id g.binCount ∧
    task.fireAtMs = cycleStartMs + task.offsetSeconds * 1000 ∧
    task.status = .pending ∧ task.consecutiveFailures = 0 ∧
    task.createdAtMs = nowMs ∧ task.patientId = patient.id ∧ task.id = freshId := by
  by_cases h1 : patient.id = ""
  · rw [generateTaskForPatient_err_guard g freshId nowMs patient cycleStartMs h1] at h
    cases h
  · by_cases h2 : jsTrim patient.id = ""
    · rw [generateTaskForPatient_err_trim g freshId nowMs patient cycleStartMs h1 h2] at h
      cases h
    · rw [generateTaskForPatient_ok g freshId nowMs patient cycleStartMs hbin h1 h2] at h
      cases h
      exact ⟨rfl, rfl, rfl, rfl, rfl, rfl, rfl⟩

theorem generateTaskForPatient_isOk_iff (g : TaskGenerator) (freshId : String)
    (nowMs : Int) (patient : PatientInput) (cycleStartMs : Int) (hbin : 0 < g.binCount) :
    (∃ task, g.generateTaskForPatient freshId nowMs patient cycleStartMs = .ok task) ↔
      recordOk patient = true := by
  constructor
  · rintro ⟨task, h⟩
    by_cases h1 : patient.id = ""
    · rw [generateTaskForPatient_err_guard g freshId nowMs patient cycleStartMs h1] at h
      cases h
    · by_cases h2 : jsTrim patient.id = ""
      · rw [generateTaskForPatient_err_trim g freshId nowMs patient cycleStartMs h1 h2] at h
        cases h
      · simp [recordOk, h1, h2]
  · intro hok
    have h1 : patient.id ≠ "" := by
      intro h
      simp [recordOk, h] at hok
    have h2 : jsTrim patient.id ≠ "" := by
      intro h
      simp [recordOk, h] at hok
    exact ⟨_, generateTaskForPatient_ok g freshId nowMs patient cycleStartMs hbin h1 h2⟩

/-! ## Lemmas about the JS `Map` model -/

theorem any_key_of_mem (m : List (Int × Nat)) (k : Int) (h : k ∈ m.map (·.1)) :
    m.any (fun p => p.1 == k) = true := by
  rw [List.any_eq_true]
  obtain ⟨p, hp, hpk⟩ := List.mem_map.mp h
  exact ⟨p, hp, by simp [hpk]⟩

theorem find?_map_upd (m : List (Int × Nat)) (k : Int) (v : Nat)
    (h : k ∈ m.map (·.1)) :
    (m.map (fun p => if p.1 == k then (k, v) else p)).find? (fun p => p.1 == k) =
      some (k, v) := by
  induction m with
  | nil => simp at h
  | cons p rest ih =>
      simp only [List.map_cons, List.mem_cons] at h
      by_cases hp : p.1 = k
      · simp [List.find?_cons, hp, -List.find?_map]
      · have hk : k ∈ rest.map (·.1) := by
          rcases h with h | h
          · exact absurd h.symm hp
          · exact h
        have ihk := ih hk
        simp only [beq_iff_eq] at ihk
        simp [List.find?_cons, hp, ihk, -List.find?_map]

theorem find?_map_upd_ne (m : List (Int × Nat)) (k k' : Int) (v : Nat) (hne : k' ≠ k) :
    (m.map (fun p => if p.1 == k then (k, v) else p)).find? (fun p => p.1 == k') =
      m.find? (fun p => p.1 == k') := by
  induction m with
  | nil => rfl
  | cons p rest ih =>
      have ih' := ih
      simp only [beq_iff_eq] at ih'
      by_cases hp : p.1 = k
      · have hpk : p.1 ≠ k' := by rw [hp]; exact (Ne.symm hne)
        simp [List.find?_cons, hp, Ne.symm hne, hpk, ih', -List.find?_map]
      · by_cases hp' : p.1 = k'
        · simp [List.find?_cons, hp, hp', hne, -List.find?_map]
        · simp [List.find?_cons, hp, hp', ih', -List.find?_map]

theorem mapGet_mapSet_self (m : List (Int × Nat)) (k : Int) (v : Nat)
    (h : k ∈ m.map (·.1)) : mapGet (mapSet m k v) k = some v := by
  unfold mapGet mapSet
  rw [if_pos (any_key_of_mem m k h), find?_map_upd m k v h]
  rfl

theorem mapGet_mapSet_ne (m : List (Int × Nat)) (k : Int) (v : Nat) (k' : Int)
    (hne : k' ≠ k) : mapGet (mapSet m k v) k' = mapGet m k' := by
  unfold mapGet mapSet
  by_cases hc : m.any (fun p => p.1 == k) = true
  · rw [if_pos hc, find?_map_upd_ne m k k' v hne]
  · rw [if_neg hc, List.find?_append]
    have : ([(k, v)] : List (Int × Nat)).find? (fun p => p.1 == k') = none := by
      simp [List.find?_cons, Ne.symm hne]
    rw [this, Option.or_none]

theorem mapSet_keys (m : List (Int × Nat)) (k : Int) (v : Nat)
    (h : k ∈ m.map (·.1)) : (mapSet m k v).map (·.1) = m.map (·.1) := by
  unfold mapSet
  rw [if_pos (any_key_of_mem m k h), List.map_map]
  apply List.map_congr_left
  intro p _
  by_cases hp : p.1 = k
  · simp [hp]
  · simp [hp]

theorem mapGet_mem (m : List (Int × Nat)) (k : Int) (v : Nat)
    (h : mapGet m k = some v) : (k, v) ∈ m := by
  unfold mapGet at h
  cases hf : m.find? (fun p => p.1 == k) with
  | none => rw [hf] at h; cases h
  | some p =>
      rw [hf] at h
      have hm := List.mem_of_find?_eq_some hf
      have hp : p.1 = k := by simpa using List.find?_some hf
      cases h
      rw [← hp]
      simpa using hm

theorem mapGet_isSome_of_mem (m : List (Int × Nat)) (k : Int)
    (h : k ∈ m.map (·.1)) : (mapGet m k).isSome := by
  unfold mapGet
  obtain ⟨p, hp, hpk⟩ := List.mem_map.mp h
  have hfind : (m.find? (fun q => q.1 == k)).isSome := by
    rw [List.find?_isSome]
    exact ⟨p, hp, by simp [hpk]⟩
  cases hf : m.find? (fun q => q.1 == k) with
  | none => rw [hf] at hfind; cases hfind
  | some q => rfl

theorem seedBins_keys (n : Int) : (seedBins n).map (·.1) = rangeKeys n := by
  unfold seedBins rangeKeys
  rw [List.map_map]
  rfl

theorem seedBins_val (n : Int) (p : Int × Nat) (hp : p ∈ seedBins n) : p.2 = 0 := by
  simp only [seedBins, List.mem_map] at hp
  obtain ⟨i, _, rfl⟩ := hp
  rfl

theorem mem_rangeKeys_iff (n : Int) (b : Int) :
    b ∈ rangeKeys n ↔ 0 ≤ b ∧ b < n := by
  unfold rangeKeys
  simp only [List.mem_map, List.mem_range]
  constructor
  · rintro ⟨i, hi, rfl⟩
    omega
  · intro hb
    exact ⟨b.toNat, by omega, by omega⟩

theorem mapGet_seedBins (n b : Int) :
    mapGet (seedBins n) b = if 0 ≤ b ∧ b < n then some 0 else none := by
  by_cases hb : 0 ≤ b ∧ b < n
  · rw [if_pos hb]
    have hmem : b ∈ (seedBins n).map (·.1) := by
      rw [seedBins_keys]
      exact (mem_rangeKeys_iff n b).mpr hb
    cases hval : mapGet (seedBins n) b with
    | none =>
        have hs := mapGet_isSome_of_mem _ _ hmem
        rw [hval] at hs
        cases hs
    | some v =>
        have hv := mapGet_mem _ _ _ hval
        have hz : ((b, v) : Int × Nat).2 = 0 := seedBins_val n _ hv
        simp only at hz
        rw [hz]
  · rw [if_neg hb]
    cases hval : mapGet (seedBins n) b with
    | none => rfl
    | some v =>
        have hv := mapGet_mem _ _ _ hval
        have hbk : b ∈ (seedBins n).map (·.1) := List.mem_map.mpr ⟨(b, v), hv, rfl⟩
        rw [seedBins_keys] at hbk
        exact absurd ((mem_rangeKeys_iff n b).mp hbk) hb

/-- Running the bin bump over a list of in-range offsets keeps the key set
equal to `0, …, binCount-1` and adds, at each key, the number of
occurrences of that key among the offsets. -/
theorem foldl_bumpBin_spec (n : Int) :
    ∀ (offs : List Int) (m : List (Int × Nat)),
      m.map (·.1) = rangeKeys n →
      (∀ o ∈ offs, 0 ≤ o ∧ o < n) →
      ((offs.foldl bumpBin m).map (·.1) = rangeKeys n ∧
       ∀ b : Int, mapGet (offs.foldl bumpBin m) b =
         (mapGet m b).map (fun c => c + offs.count b)) := by
  intro offs
  induction offs with
  | nil =>
      intro m hkeys _
      refine ⟨hkeys, fun b => ?_⟩
      rw [List.foldl_nil, List.count_nil]
      cases hc : mapGet m b <;> simp
  | cons o rest ih =>
      intro m hkeys hoffs
      have ho := hoffs o (by simp)
      have homem : o ∈ m.map (·.1) := by
        rw [hkeys]
        exact (mem_rangeKeys_iff n o).mpr ho
      have hbump_keys : (bumpBin m o).map (·.1) = m.map (·.1) := mapSet_keys m o _ homem
      have hrec := ih (bumpBin m o) (by rw [hbump_keys, hkeys])
        (fun x hx => hoffs x (by simp [hx]))
      rw [List.foldl_cons]
      refine ⟨hrec.1, fun b => ?_⟩
      rw [hrec.2 b]
      by_cases hbo : b = o
      · subst hbo
        have hsome := mapGet_isSome_of_mem m b homem
        cases hc : mapGet m b with
        | none => rw [hc] at hsome; cases hsome
        | some c =>
            have hset : mapGet (bumpBin m b) b = some (c + 1) := by
              unfold bumpBin
              rw [hc]
              exact mapGet_mapSet_self m b _ homem
            rw [hset]
            simp [List.count_cons]
            omega
      · rw [show mapGet (bumpBin m o) b = mapGet m b from mapGet_mapSet_ne m o _ b hbo]
        have hcnt : (o :: rest).count b = rest.count b := by
          simp [List.count_cons, hbo]
        rw [hcnt]

/-! ## The batch loop invariant -/

theorem batch_foldl_spec (g : TaskGenerator) (uuid : Nat → String)
    (nowMs cycleStartMs : Int) (hbin : 0 < g.binCount) :
    ∀ (patients : List PatientInput) (acc : List ScrapeTask × List (Int × Nat)),
      (patients.foldl (g.batchStep uuid nowMs cycleStartMs) acc).1.length =
        acc.1.length + patients.countP recordOk ∧
      (patients.foldl (g.batchStep uuid nowMs cycleStartMs) acc).1.map (·.patientId) =
        acc.1.map (·.patientId) ++ (patients.filter recordOk).map (·.id) ∧
      (patients.foldl (g.batchStep uuid nowMs cycleStartMs) acc).1.map (·.offsetSeconds) =
        acc.1.map (·.offsetSeconds) ++
          (patients.filter recordOk).map (fun p => offsetValue p.id g.binCount) ∧
      (patients.foldl (g.batchStep uuid nowMs cycleStartMs) acc).2 =
        ((patients.filter recordOk).map
          (fun p => offsetValue p.id g.binCount)).foldl bumpBin acc.2 ∧
      ∀ t ∈ (patients.foldl (g.batchStep uuid nowMs cycleStartMs) acc).1, t ∈ acc.1 ∨
        (t.offsetSeconds = offsetValue t.patientId g.binCount ∧
         t.fireAtMs = cycleStartMs + t.offsetSeconds * 1000 ∧
         t.status = .pending ∧ t.consecutiveFailures = 0 ∧ t.createdAtMs = nowMs) := by
  intro patients
  induction patients with
  | nil =>
      intro acc
      exact ⟨by simp, by simp, by simp, by simp, fun t ht => Or.inl ht⟩
  | cons p ps ih =>
      intro acc
      by_cases hok : recordOk p = true
      · have h1 : p.id ≠ "" := by
          intro h
          simp [recordOk, h] at hok
        have h2 : jsTrim p.id ≠ "" := by
          intro h
          simp [recordOk, h] at hok
        have hgen := generateTaskForPatient_ok g (uuid acc.1.length) nowMs p cycleStartMs
          hbin h1 h2
        have hstep : g.batchStep uuid nowMs cycleStartMs acc p =
            (acc.1 ++ [(⟨uuid acc.1.length, p.id,
              cycleStartMs + offsetValue p.id g.binCount * 1000,
              offsetValue p.id g.binCount, .pending, 0, nowMs⟩ : ScrapeTask)],
             bumpBin acc.2 (offsetValue p.id g.binCount)) := by
          unfold TaskGenerator.batchStep
          rw [hgen]
        rw [List.foldl_cons, hstep]
        have hrec := ih (acc.1 ++ [(⟨uuid acc.1.length, p.id,
          cycleStartMs + offsetValue p.id g.binCount * 1000,
          offsetValue p.id g.binCount, .pending, 0, nowMs⟩ : ScrapeTask)],
          bumpBin acc.2 (offsetValue p.id g.binCount))
        refine ⟨?_, ?_, ?_, ?_, ?_⟩
        · rw [hrec.1, List.countP_cons_of_pos _ _ hok]
          simp
          omega
        · rw [hrec.2.1, List.filter_cons_of_pos hok]
          simp
        · rw [hrec.2.2.1, List.filter_cons_of_pos hok]
          simp
        · rw [hrec.2.2.2.1, List.filter_cons_of_pos hok]
          simp
        · intro t ht
          rcases hrec.2.2.2.2 t ht with hmem | hgood
          · rcases List.mem_append.mp hmem with hleft | hright
            · exact Or.inl hleft
            · simp only [List.mem_singleton] at hright
              subst hright
              exact Or.inr ⟨rfl, rfl, rfl, rfl, rfl⟩
          · exact Or.inr hgood
      · have hko : recordOk p = false := by
          simpa using hok
        have hstep : g.batchStep uuid nowMs cycleStartMs acc p = acc := by
          unfold TaskGenerator.batchStep
          by_cases h1 : p.id = ""
          · rw [generateTaskForPatient_err_guard _ _ _ _ _ h1]
          · have h2 : jsTrim p.id = "" := by
              simp [recordOk, h1] at hko
              exact hko
            rw [generateTaskForPatient_err_trim _ _ _ _ _ h1 h2]
        rw [List.foldl_cons, hstep]
        have hrec := ih acc
        refine ⟨?_, ?_, ?_, ?_, hrec.2.2.2.2⟩
        · rw [hrec.1, List.countP_cons_of_neg]
          simp [hko]
        · rw [hrec.2.1, List.filter_cons_of_neg]
          simp [hko]
        · rw [hrec.2.2.1, List.filter_cons_of_neg]
          simp [hko]
        · rw [hrec.2.2.2.1, List.filter_cons_of_neg]
          simp [hko]

/-! ## C3, C5, C10 -/

/-- Claim C3. For every successfully constructed generator (so
`binCount ≤ intervalSeconds` holds), a task produced for a record fires at
exactly `cycleStart + offsetSeconds` seconds and within
`[cycleStart, cycleStart + intervalSeconds)`; the same bounds hold for
every task in a batch result. Timestamps are epoch ms, so the
half-open interval is `[cycleStartMs, cycleStartMs + intervalSeconds*1000)`. -/
theorem fireAt_within_cycle (config : TaskGeneratorConfig) (g : TaskGenerator)
    (hg : TaskGenerator.create config = .ok g) :
    (∀ (freshId : String) (nowMs : Int) (patient : PatientInput) (cycleStartMs : Int)
       (task : ScrapeTask),
       g.generateTaskForPatient freshId nowMs patient cycleStartMs = .ok task →
       task.fireAtMs = cycleStartMs + task.offsetSeconds * 1000 ∧
       cycleStartMs ≤ task.fireAtMs ∧
       task.fireAtMs < cycleStartMs + g.intervalSeconds * 1000) ∧
    (∀ (uuid : Nat → String) (nowMs : Int) (patients : List PatientInput)
       (cycleStartMs : Int) (task : ScrapeTask),
       task ∈ (g.generateTasksForPatients uuid nowMs patients cycleStartMs).tasks →
       task.fireAtMs = cycleStartMs + task.offsetSeconds * 1000 ∧
       cycleStartMs ≤ task.fireAtMs ∧
       task.fireAtMs < cycleStartMs + g.intervalSeconds * 1000) := by
  obtain ⟨hi, hb, hbi⟩ := create_ok_inv config g hg
  constructor
  · intro freshId nowMs patient cycleStartMs task ht
    obtain ⟨hoff, hfire, -, -, -, -, -⟩ :=
      generateTaskForPatient_ok_inv g freshId nowMs patient cycleStartMs task hb ht
    have hbound := offsetValue_bound patient.id g.binCount hb
    have h1 : 0 ≤ task.offsetSeconds := by rw [hoff]; exact hbound.1
    have h2 : task.offsetSeconds < g.binCount := by rw [hoff]; exact hbound.2
    refine ⟨hfire, ?_, ?_⟩
    · rw [hfire]; omega
    · rw [hfire]; omega
  · intro uuid nowMs patients cycleStartMs task hmem
    have hspec := (batch_foldl_spec g uuid nowMs cycleStartMs hb patients
      ([], seedBins g.binCount)).2.2.2.2
    have hmem' : task ∈
        (patients.foldl (g.batchStep uuid nowMs cycleStartMs) ([], seedBins g.binCount)).1 :=
      hmem
    rcases hspec task hmem' with h | hgood
    · simp at h
    · obtain ⟨hoff, hfire, -, -, -⟩ := hgood
      have hbound := offsetValue_bound task.patientId g.binCount hb
      have h1 : 0 ≤ task.offsetSeconds := by rw [hoff]; exact hbound.1
      have h2 : task.offsetSeconds < g.binCount := by rw [hoff]; exact hbound.2
      refine ⟨hfire, ?_, ?_⟩
      · rw [hfire]; omega
      · rw [hfire]; omega

set_option maxRecDepth 40000 in
theorem fireAt_within_cycle_witness :
    TaskGenerator.create {} = .ok ⟨300, 300⟩ ∧
    ((⟨"u", "patient-123", 153000, 153, .pending, 0, 0⟩ : ScrapeTask).fireAtMs =
        0 + (⟨"u", "patient-123", 153000, 153, .pending, 0, 0⟩ : ScrapeTask).offsetSeconds *
          1000 ∧
      (0 : Int) ≤ (⟨"u", "patient-123", 153000, 153, .pending, 0, 0⟩ : ScrapeTask).fireAtMs ∧
      (⟨"u", "patient-123", 153000, 153, .pending, 0, 0⟩ : ScrapeTask).fireAtMs <
        0 + (300 : Int) * 1000) :=
  ⟨rfl, (fireAt_within_cycle {} ⟨300, 300⟩ rfl).1 "u" 0 ⟨"patient-123", none⟩ 0
    ⟨"u", "patient-123", 153000, 153, .pending, 0, 0⟩ (by rfl)⟩

/-- Claim C5. A batch call is a total function (a per-record throw is caught
and the record skipped): task generation for a record succeeds exactly when
the record passes both guards, the batch yields one task per such record in
input order, `tasksGenerated`/`totalPatients` report tasks and inputs, task
count never exceeds input count, and is strictly less exactly when some
record fails validation. -/
theorem batch_partial_failure_policy (config : TaskGeneratorConfig) (g : TaskGenerator)
    (hg : TaskGenerator.create config = .ok g) (uuid : Nat → String) (nowMs : Int)
    (patients : List PatientInput) (cycleStartMs : Int) :
    (∀ (q : PatientInput) (freshId : String),
       (∃ t, g.generateTaskForPatient freshId nowMs q cycleStartMs = .ok t) ↔
         recordOk q = true) ∧
    (g.generateTasksForPatients uuid nowMs patients cycleStartMs).tasks.length =
      patients.countP recordOk ∧
    (g.generateTasksForPatients uuid nowMs patients cycleStartMs).stats.tasksGenerated =
      (g.generateTasksForPatients uuid nowMs patients cycleStartMs).tasks.length ∧
    (g.generateTasksForPatients uuid nowMs patients cycleStartMs).stats.totalPatients =
      patients.length ∧
    (g.generateTasksForPatients uuid nowMs patients cycleStartMs).tasks.map (·.patientId) =
      (patients.filter recordOk).map (·.id) ∧
    (g.generateTasksForPatients uuid nowMs patients cycleStartMs).tasks.length ≤
      patients.length ∧
    ((g.generateTasksForPatients uuid nowMs patients cycleStartMs).tasks.length <
        patients.length ↔ ∃ q ∈ patients, recordOk q = false) := by
  obtain ⟨hi, hb, hbi⟩ := create_ok_inv config g hg
  have hspec := batch_foldl_spec g uuid nowMs cycleStartMs hb patients
    ([], seedBins g.binCount)
  have hlen : (g.generateTasksForPatients uuid nowMs patients cycleStartMs).tasks.length =
      patients.countP recordOk := by
    have h := hspec.1
    simpa using h
  refine ⟨fun q freshId => generateTaskForPatient_isOk_iff g freshId nowMs q cycleStartMs hb,
    hlen, rfl, rfl, ?_, ?_, ?_⟩
  · have h := hspec.2.1
    simpa using h
  · rw [hlen]
    exact List.countP_le_length _
  · rw [hlen]
    constructor
    · intro hlt
      by_contra hno
      push_neg at hno
      have hall : ∀ q ∈ patients, recordOk q = true := by
        intro q hq
        have hx := hno q hq
        simpa using hx
      rw [List.countP_eq_length.mpr hall] at hlt
      exact lt_irrefl _ hlt
    · rintro ⟨q, hq, hfq⟩
      refine Nat.lt_of_le_of_ne (List.countP_le_length _) ?_
      intro heq
      have hx := List.countP_eq_length.mp heq q hq
      rw [hfq] at hx
      cases hx

set_option maxRecDepth 40000 in
theorem batch_partial_failure_policy_witness :
    TaskGenerator.create {} = .ok ⟨300, 300⟩ ∧
    ((⟨300, 300⟩ : TaskGenerator).generateTasksForPatients (fun _ => "uuid") 0
      (List.replicate 999 ⟨"x", none⟩ ++ [⟨"", none⟩]) 0).tasks.length = 999 := by
  refine ⟨rfl, ?_⟩
  have h := (batch_partial_failure_policy {} ⟨300, 300⟩ rfl (fun _ => "uuid") 0
    (List.replicate 999 ⟨"x", none⟩ ++ [⟨"", none⟩]) 0).2.1
  rw [h]
  decide

/-- Claim C10. A whitespace-only (non-empty) id passes the generator's
falsiness guard but makes `computeOffset` throw its trimmed-emptiness
error, which the batch loop catches: the error message is the hasher's
(not the guard's `"Patient ID is required"`), the batch neither fails nor
produces a task for that record, and the record is counted in
`totalPatients` but not in `tasksGenerated`. -/
theorem whitespace_id_skipped (config : TaskGeneratorConfig) (g : TaskGenerator)
    (hg : TaskGenerator.create config = .ok g) (p : PatientInput)
    (hne : p.id ≠ "") (hws : jsTrim p.id = "")
    (freshId : String) (uuid : Nat → String) (nowMs cycleStartMs : Int)
    (xs ys : List PatientInput) :
    g.generateTaskForPatient freshId nowMs p cycleStartMs =
      .error "Patient ID is required and cannot be empty" ∧
    (g.generateTasksForPatients uuid nowMs (xs ++ p :: ys) cycleStartMs).stats.totalPatients =
      xs.length + ys.length + 1 ∧
    (g.generateTasksForPatients uuid nowMs (xs ++ p :: ys) cycleStartMs).stats.tasksGenerated =
      (xs ++ ys).countP recordOk ∧
    ∀ t ∈ (g.generateTasksForPatients uuid nowMs (xs ++ p :: ys) cycleStartMs).tasks,
      t.patientId ≠ p.id := by
  obtain ⟨hi, hb, hbi⟩ := create_ok_inv config g hg
  have hko : recordOk p = false := by
    simp [recordOk, hws]
  have hspec := batch_foldl_spec g uuid nowMs cycleStartMs hb (xs ++ p :: ys)
    ([], seedBins g.binCount)
  refine ⟨generateTaskForPatient_err_trim g freshId nowMs p cycleStartMs hne hws,
    ?_, ?_, ?_⟩
  · show (xs ++ p :: ys).length = xs.length + ys.length + 1
    simp
    omega
  · have hgen : (g.generateTasksForPatients uuid nowMs (xs ++ p :: ys)
        cycleStartMs).stats.tasksGenerated = (xs ++ p :: ys).countP recordOk := by
      have h := hspec.1
      exact h.trans (by simp)
    rw [hgen, List.countP_append, List.countP_cons, List.countP_append, hko]
    simp
  · intro t ht heq
    have hmap : (g.generateTasksForPatients uuid nowMs (xs ++ p :: ys)
        cycleStartMs).tasks.map (·.patientId) =
        ((xs ++ p :: ys).filter recordOk).map (·.id) := by
      have h := hspec.2.1
      exact h.trans (by simp)
    have hmem : t.patientId ∈ (g.generateTasksForPatients uuid nowMs (xs ++ p :: ys)
        cycleStartMs).tasks.map (·.patientId) := List.mem_map_of_mem _ ht
    rw [hmap] at hmem
    obtain ⟨q, hq, hqid⟩ := List.mem_map.mp hmem
    have hqok : recordOk q = true := List.of_mem_filter hq
    have hqp : q.id = p.id := hqid.trans heq
    simp [recordOk, hqp, hws] at hqok

theorem whitespace_id_skipped_witness :
    TaskGenerator.create {} = .ok ⟨300, 300⟩ ∧
    ((⟨" ", none⟩ : PatientInput).id ≠ "" ∧ jsTrim (⟨" ", none⟩ : PatientInput).id = "") ∧
    ((⟨300, 300⟩ : TaskGenerator).generateTaskForPatient "u" 0 ⟨" ", none⟩ 0 =
        .error "Patient ID is required and cannot be empty" ∧
      ((⟨300, 300⟩ : TaskGenerator).generateTasksForPatients (fun _ => "u") 0
        ([⟨"a", none⟩] ++ ⟨" ", none⟩ :: []) 0).stats.totalPatients = 1 + 0 + 1 ∧
      ((⟨300, 300⟩ : TaskGenerator).generateTasksForPatients (fun _ => "u") 0
        ([⟨"a", none⟩] ++ ⟨" ", none⟩ :: []) 0).stats.tasksGenerated =
        (([⟨"a", none⟩] : List PatientInput) ++ []).countP recordOk ∧
      ∀ t ∈ ((⟨300, 300⟩ : TaskGenerator).generateTasksForPatients (fun _ => "u") 0
        ([⟨"a", none⟩] ++ ⟨" ", none⟩ :: []) 0).tasks,
        t.patientId ≠ (⟨" ", none⟩ : PatientInput).id) :=
  ⟨rfl, ⟨by decide, by decide⟩,
    whitespace_id_skipped {} ⟨300, 300⟩ rfl ⟨" ", none⟩ (by decide) (by decide)
      "u" (fun _ => "u") 0 0 [⟨"a", none⟩] []⟩

/-! ## `analyzeDistribution` lemmas -/

theorem foldlM_hash_ok (n : Int) (hbin : 0 < n) :
    ∀ (ids : List String), (∀ id ∈ ids, jsTrim id ≠ "") →
    ∀ (m : List (Int × Nat)),
      (ids.foldlM (fun m patientId => do
          let offset ← computeOffset patientId n
          return bumpBin m offset) m : Except String (List (Int × Nat))) =
        .ok (ids.foldl (fun m id => bumpBin m (offsetValue id n)) m) := by
  intro ids
  induction ids with
  | nil =>
      intro _ m
      rfl
  | cons id rest ih =>
      intro hv m
      have h := computeOffset_spec id n
      rw [if_neg (hv id (by simp)), if_neg (not_le.mpr hbin)] at h
      rw [List.foldlM_cons, h, List.foldl_cons]
      exact ih (fun i hi => hv i (by simp [hi])) (bumpBin m (offsetValue id n))

theorem analyzeDistribution_spec (ids : List String) (n : Int)
    (hids : ∀ id ∈ ids, jsTrim id ≠ "") (hbin : 0 < n) :
    ∃ stats, analyzeDistribution ids n = .ok stats ∧
      stats.binCounts = ids.foldl (fun m id => bumpBin m (offsetValue id n)) (seedBins n) ∧
      stats.mean = ((((stats.binCounts.map (·.2)).sum : ℕ)) : ℚ) /
        ((stats.binCounts.map (·.2)).length : ℚ) ∧
      stats.variance = ((stats.binCounts.map (·.2)).map
        (fun count : Nat => ((count : ℚ) - stats.mean) ^ 2)).sum /
        ((stats.binCounts.map (·.2)).length : ℚ) ∧
      stats.stdDev = Real.sqrt (stats.variance : ℝ) := by
  simp only [analyzeDistribution]
  rw [foldlM_hash_ok n hbin ids hids (seedBins n)]
  generalize List.foldl (fun m id => bumpBin m (offsetValue id n)) (seedBins n) ids = F
  exact ⟨_, rfl, rfl, rfl, rfl, rfl⟩

/-- The accumulated bin map over any in-range offset list: full key set and
per-key occurrence counts. -/
theorem histogram_complete (n : Int) (offs : List Int)
    (hoffs : ∀ o ∈ offs, 0 ≤ o ∧ o < n) :
    (offs.foldl bumpBin (seedBins n)).length = n.toNat ∧
    (offs.foldl bumpBin (seedBins n)).map (·.1) = rangeKeys n ∧
    ∀ b : Int, 0 ≤ b → b < n →
      mapGet (offs.foldl bumpBin (seedBins n)) b = some (offs.count b) := by
  have hs := foldl_bumpBin_spec n offs (seedBins n) (seedBins_keys n) hoffs
  refine ⟨?_, hs.1, ?_⟩
  · have hlen := congrArg List.length hs.1
    rw [List.length_map] at hlen
    rw [hlen]
    simp [rangeKeys]
  · intro b hb0 hbn
    rw [hs.2 b, mapGet_seedBins, if_pos ⟨hb0, hbn⟩]
    simp

theorem count_map_countP {α : Type} (f : α → Int) (l : List α) (b : Int) :
    (l.map f).count b = l.countP (fun a => f a == b) := by
  induction l with
  | nil => rfl
  | cons x xs ih =>
      rw [List.map_cons, List.count_cons, List.countP_cons, ih]

theorem seedBins_snd (n : Int) : (seedBins n).map (·.2) = List.replicate n.toNat 0 := by
  unfold seedBins
  rw [List.map_map]
  have hf : ((fun x : Int × Nat => x.2) ∘ fun i : Nat => ((i : Int), 0)) =
      fun _ : Nat => 0 := rfl
  rw [hf, List.map_const', List.length_range]

/-! ## C8 and C9 -/

/-- Claim C8. The batch's `stats.binDistribution` has exactly `binCount`
entries — its keys are `0, …, binCount-1` in order, present even for empty
bins — and maps each bin `b` to the number of returned tasks whose
`offsetSeconds` equals `b`; the `analyzeDistribution` histogram has the
same completeness, counting input identifiers per bin. -/
theorem bin_histogram_complete (config : TaskGeneratorConfig) (g : TaskGenerator)
    (hg : TaskGenerator.create config = .ok g)
    (uuid : Nat → String) (nowMs : Int) (patients : List PatientInput)
    (cycleStartMs : Int) (ids : List String) (binCount : Int)
    (hids : ∀ id ∈ ids, jsTrim id ≠ "") (hbin : 0 < binCount) :
    ((g.generateTasksForPatients uuid nowMs patients
        cycleStartMs).stats.binDistribution.length = g.binCount.toNat ∧
     (g.generateTasksForPatients uuid nowMs patients
        cycleStartMs).stats.binDistribution.map (·.1) = rangeKeys g.binCount ∧
     ∀ b : Int, 0 ≤ b → b < g.binCount →
       mapGet ((g.generateTasksForPatients uuid nowMs patients
           cycleStartMs).stats.binDistribution) b =
         some ((g.generateTasksForPatients uuid nowMs patients
           cycleStartMs).tasks.countP (fun t => t.offsetSeconds == b))) ∧
    (∃ stats, analyzeDistribution ids binCount = .ok stats ∧
      stats.binCounts.length = binCount.toNat ∧
      stats.binCounts.map (·.1) = rangeKeys binCount ∧
      ∀ b : Int, 0 ≤ b → b < binCount →
        mapGet stats.binCounts b =
          some (ids.countP (fun id => offsetValue id binCount == b))) := by
  obtain ⟨hi, hb, hbi⟩ := create_ok_inv config g hg
  constructor
  · have hspec := batch_foldl_spec g uuid nowMs cycleStartMs hb patients
      ([], seedBins g.binCount)
    have hoffs : ∀ o ∈ (patients.filter recordOk).map
        (fun p => offsetValue p.id g.binCount), 0 ≤ o ∧ o < g.binCount := by
      intro o ho
      obtain ⟨q, _, rfl⟩ := List.mem_map.mp ho
      exact offsetValue_bound q.id g.binCount hb
    have hdist : (g.generateTasksForPatients uuid nowMs patients
        cycleStartMs).stats.binDistribution =
        ((patients.filter recordOk).map
          (fun p => offsetValue p.id g.binCount)).foldl bumpBin (seedBins g.binCount) :=
      hspec.2.2.2.1
    have hh := histogram_complete g.binCount _ hoffs
    refine ⟨?_, ?_, ?_⟩
    · rw [hdist]
      exact hh.1
    · rw [hdist]
      exact hh.2.1
    · intro b hb0 hbn
      rw [hdist, hh.2.2 b hb0 hbn]
      congr 1
      have hmapoff : (g.generateTasksForPatients uuid nowMs patients
          cycleStartMs).tasks.map (·.offsetSeconds) =
          (patients.filter recordOk).map (fun p => offsetValue p.id g.binCount) := by
        have h := hspec.2.2.1
        exact h.trans (by simp)
      rw [← hmapoff, count_map_countP]
  · obtain ⟨stats, hok, hbc, hmean, hvar, hstd⟩ :=
      analyzeDistribution_spec ids binCount hids hbin
    have hoffs : ∀ o ∈ ids.map (fun id => offsetValue id binCount),
        0 ≤ o ∧ o < binCount := by
      intro o ho
      obtain ⟨q, _, rfl⟩ := List.mem_map.mp ho
      exact offsetValue_bound q binCount hbin
    have hfold : stats.binCounts =
        (ids.map (fun id => offsetValue id binCount)).foldl bumpBin (seedBins binCount) := by
      rw [hbc, List.foldl_map]
    have hh := histogram_complete binCount _ hoffs
    refine ⟨stats, hok, ?_, ?_, ?_⟩
    · rw [hfold]
      exact hh.1
    · rw [hfold]
      exact hh.2.1
    · intro b hb0 hbn
      rw [hfold, hh.2.2 b hb0 hbn]
      congr 1
      rw [count_map_countP]

theorem bin_histogram_complete_witness :
    TaskGenerator.create {} = .ok ⟨300, 300⟩ ∧
    (∀ id ∈ (["a"] : List String), jsTrim id ≠ "") ∧ (0 : Int) < 1 ∧
    ((((⟨300, 300⟩ : TaskGenerator).generateTasksForPatients (fun _ => "u") 0 []
        0).stats.binDistribution.length = (⟨300, 300⟩ : TaskGenerator).binCount.toNat ∧
      ((⟨300, 300⟩ : TaskGenerator).generateTasksForPatients (fun _ => "u") 0 []
        0).stats.binDistribution.map (·.1) = rangeKeys (⟨300, 300⟩ : TaskGenerator).binCount ∧
      ∀ b : Int, 0 ≤ b → b < (⟨300, 300⟩ : TaskGenerator).binCount →
        mapGet (((⟨300, 300⟩ : TaskGenerator).generateTasksForPatients (fun _ => "u") 0 []
            0).stats.binDistribution) b =
          some (((⟨300, 300⟩ : TaskGenerator).generateTasksForPatients (fun _ => "u") 0 []
            0).tasks.countP (fun t => t.offsetSeconds == b))) ∧
     (∃ stats, analyzeDistribution ["a"] 1 = .ok stats ∧
       stats.binCounts.length = (1 : Int).toNat ∧
       stats.binCounts.map (·.1) = rangeKeys 1 ∧
       ∀ b : Int, 0 ≤ b → b < 1 →
         mapGet stats.binCounts b =
           some ((["a"] : List String).countP (fun id => offsetValue id 1 == b)))) :=
  ⟨rfl, by decide, by decide,
    bin_histogram_complete {} ⟨300, 300⟩ rfl (fun _ => "u") 0 [] 0 ["a"] 1
      (by decide) (by decide)⟩

/-- Claim C9, counterexample. The spec's gloss "an empty identifier list is
always acceptable" fails when `maxCV` is negative: with `maxCV = -1` the
call returns the false proposition `0 ≤ -1` (the guard sets the CV to `0`
when the mean is `0`, and `0 ≤ -1` fails). -/
theorem empty_list_not_always_acceptable :
    isDistributionAcceptable [] 1 (-1) = .ok ((0 : ℝ) ≤ ((-1 : ℚ) : ℝ)) ∧
      ¬ ((0 : ℝ) ≤ ((-1 : ℚ) : ℝ)) := by
  constructor
  · obtain ⟨stats, hok, hbc, hmean, hvar, hstd⟩ :=
      analyzeDistribution_spec [] 1 (by simp) (by norm_num)
    have hacc : isDistributionAcceptable [] 1 (-1) =
        .ok ((if stats.mean > 0 then stats.stdDev / (stats.mean : ℝ) else 0) ≤
          ((-1 : ℚ) : ℝ)) := by
      simp only [isDistributionAcceptable]
      rw [hok]
      rfl
    have hbc0 : stats.binCounts = seedBins 1 := by
      simpa using hbc
    have hmean0 : stats.mean = 0 := by
      rw [hmean, hbc0, seedBins_snd]
      norm_num
    rw [hacc, if_neg (by rw [hmean0]; exact lt_irrefl 0)]
  · push_cast
    norm_num

/-- Claim C9, amended. `analyzeDistribution` returns the population (not
sample) standard deviation over the `binCount` per-bin counts —
`stdDev = sqrt(mean((count_i − mean)²))`, dividing by the bin count, not
`binCount − 1` — and `isDistributionAcceptable` accepts exactly when
`cv ≤ maxCV`, where `cv = stdDev/mean` and `cv = 0` when `mean = 0`;
hence an empty identifier list is acceptable whenever `maxCV ≥ 0` (for
negative `maxCV` it is rejected, see the counterexample). -/
theorem distribution_stats_formulas (ids : List String) (binCount : Int) (maxCV : ℚ)
    (hids : ∀ id ∈ ids, jsTrim id ≠ "") (hbin : 0 < binCount) :
    ∃ stats P, analyzeDistribution ids binCount = .ok stats ∧
      isDistributionAcceptable ids binCount maxCV = .ok P ∧
      (stats.binCounts.map (·.2)).length = binCount.toNat ∧
      stats.mean = ((((stats.binCounts.map (·.2)).sum : ℕ)) : ℚ) /
        ((stats.binCounts.map (·.2)).length : ℚ) ∧
      stats.variance = ((stats.binCounts.map (·.2)).map
        (fun count : Nat => ((count : ℚ) - stats.mean) ^ 2)).sum /
        ((stats.binCounts.map (·.2)).length : ℚ) ∧
      stats.stdDev = Real.sqrt (stats.variance : ℝ) ∧
      (P ↔ (if stats.mean > 0 then stats.stdDev / (stats.mean : ℝ) else 0) ≤ (maxCV : ℝ)) ∧
      (ids = [] → 0 ≤ maxCV → P) := by
  obtain ⟨stats, hok, hbc, hmean, hvar, hstd⟩ :=
    analyzeDistribution_spec ids binCount hids hbin
  have hoffs : ∀ o ∈ ids.map (fun id => offsetValue id binCount),
      0 ≤ o ∧ o < binCount := by
    intro o ho
    obtain ⟨q, _, rfl⟩ := List.mem_map.mp ho
    exact offsetValue_bound q binCount hbin
  have hfold : stats.binCounts =
      (ids.map (fun id => offsetValue id binCount)).foldl bumpBin (seedBins binCount) := by
    rw [hbc, List.foldl_map]
  have hh := histogram_complete binCount _ hoffs
  have hlen : (stats.binCounts.map (·.2)).length = binCount.toNat := by
    rw [List.length_map, hfold]
    exact hh.1
  have hacc : isDistributionAcceptable ids binCount maxCV =
      .ok ((if stats.mean > 0 then stats.stdDev / (stats.mean : ℝ) else 0) ≤ (maxCV : ℝ)) := by
    simp only [isDistributionAcceptable]
    rw [hok]
    rfl
  refine ⟨stats, _, hok, hacc, hlen, hmean, hvar, hstd, Iff.rfl, ?_⟩
  rintro rfl hmax
  have hbc0 : stats.binCounts = seedBins binCount := by
    simpa using hbc
  have hsum : (stats.binCounts.map (·.2)).sum = 0 := by
    rw [hbc0, seedBins_snd]
    simp
  have hmean0 : stats.mean = 0 := by
    rw [hmean, hsum]
    simp
  rw [if_neg (by rw [hmean0]; exact lt_irrefl 0)]
  exact_mod_cast hmax

theorem distribution_stats_formulas_witness :
    (∀ id ∈ (["a"] : List String), jsTrim id ≠ "") ∧ (0 : Int) < 1 ∧
    (∃ stats P, analyzeDistribution ["a"] 1 = .ok stats ∧
      isDistributionAcceptable ["a"] 1 1 = .ok P ∧
      (stats.binCounts.map (·.2)).length = (1 : Int).toNat ∧
      stats.mean = ((((stats.binCounts.map (·.2)).sum : ℕ)) : ℚ) /
        ((stats.binCounts.map (·.2)).length : ℚ) ∧
      stats.variance = ((stats.binCounts.map (·.2)).map
        (fun count : Nat => ((count : ℚ) - stats.mean) ^ 2)).sum /
        ((stats.binCounts.map (·.2)).length : ℚ) ∧
      stats.stdDev = Real.sqrt (stats.variance : ℝ) ∧
      (P ↔ (if stats.mean > 0 then stats.stdDev / (stats.mean : ℝ) else 0) ≤ ((1 : ℚ) : ℝ)) ∧
      ((["a"] : List String) = [] → (0 : ℚ) ≤ 1 → P)) :=
  ⟨by decide, by decide,
    distribution_stats_formulas ["a"] 1 1 (by decide) (by decide)⟩

end VectorTakehome
